import Mathlib

/-!
Shallow embedding of the espresso JNLP launcher (src/main.go) for checking
its specification claims.

Modelling conventions:
- Go strings are modelled as lists of code points (`Str := List Nat`); the
  case operations model the ASCII behaviour of `strings.Title`,
  `strings.ToTitle` and the library's case-insensitive comparison.
- The platform is Linux: `filepath.ListSeparator` is a colon and the default
  runtime executable is `java`.
- Machine-level I/O (network, filesystem) is modelled by explicit outcome
  flags on the inputs; fallible steps return explicit outcome values.
-/

namespace Espresso

/-- Go strings modelled as lists of code points. -/
abbrev Str := List Nat

/-- Code-point list of a literal (for concrete inputs). -/
def strLit (s : String) : Str := s.data.map Char.toNat

/-- The path separator code point, `/`. -/
def slash : Nat := 47

/-- `filepath.ListSeparator` on Linux, `:`. -/
def colon : Nat := 58

/-- ASCII upper-casing of one code point (`unicode.ToUpper` restricted to ASCII). -/
def upCode (n : Nat) : Nat := if 97 ≤ n ∧ n ≤ 122 then n - 32 else n

/-- ASCII letter test (word-boundary detection of `strings.Title`). -/
def isLetter (n : Nat) : Bool := (65 ≤ n && n ≤ 90) || (97 ≤ n && n ≤ 122)

/-- Models `common.CompareIgnoreCase`: case-insensitive string equality
(spec §4.3: OS and architecture comparisons are case-insensitive). -/
def eqIC (a b : Str) : Bool := a.map upCode == b.map upCode

/-- Models `strings.ToTitle` on ASCII input: every letter upper-cased. -/
def toTitleGo (s : Str) : Str := s.map upCode

/-- Models `strings.Title` on ASCII input: the first letter of every word is
upper-cased; the Boolean is "the previous character was a word boundary". -/
def titleGo : Bool → Str → Str
  | _, [] => []
  | prev, c :: cs => (if prev then upCode c else c) :: titleGo (!(isLetter c)) cs

/-- The resource-group platform filter of `runJnlp` (main.go lines 366-377):
the loop first Title-normalizes a non-empty `arch`, ToTitle-normalizes a
non-empty `os`, then tests arch (empty or case-insensitively equal to the
configured architecture) and os (empty or case-insensitively equal to the
runtime OS name). -/
def resActive (os arch cfgOs cfgArch : Str) : Bool :=
  let arch1 := if arch.length > 0 then titleGo true arch else arch
  let os1 := if os.length > 0 then toTitleGo os else os
  (arch1.length == 0 || eqIC arch1 cfgArch) && (os1.length == 0 || eqIC os1 cfgOs)

/-- The private-JRE platform filter (main.go line 464); no Title/ToTitle
normalization is applied to the `private_jre` attributes. -/
def jreActive (os arch cfgOs cfgArch : Str) : Bool :=
  (arch.length == 0 || eqIC arch cfgArch) && (os.length == 0 || eqIC os cfgOs)

/-- Two-argument `filepath.Join` for clean, dot-free components: empty
components are dropped, otherwise the parts are separated by one slash. -/
def joinP (a b : Str) : Str := if a = [] then b else if b = [] then a else a ++ slash :: b

/-- `filepath.Dir`: everything before the last slash, `.` when there is none. -/
def dirP (p : Str) : Str :=
  if p.contains slash then ((p.reverse.dropWhile (fun c => c ≠ slash)).drop 1).reverse
  else [46]

/-- The filename computation of the private-JRE loop (main.go lines 472-478):
the suffix after the last `/` of the href, or the whole href. -/
def lastSeg (p : Str) : Str := (p.reverse.takeWhile (fun c => c ≠ slash)).reverse

/-- `strings.Join([]string{acc, x}, string(filepath.ListSeparator))`
(main.go lines 395 and 435): one separator is inserted between the two
elements, even when `acc` is empty. -/
def appendSep (acc x : Str) : Str := acc ++ colon :: x

/-! ## Cache Reconciler: the `download` function (main.go lines 148-208) -/

/-- The remote resource: outcome of the metadata-only HEAD request, outcome of
the GET request, and the declared content length.  The remote is consistent:
the GET body has exactly `contentLen` bytes (the declared length). -/
structure Net where
  headOk : Bool
  getOk : Bool
  contentLen : Nat
deriving DecidableEq

/-- The local filesystem state seen by `download`: whether `common.FileExists`
fails, whether `common.FileSize` fails, whether `os.MkdirAll` fails, whether
`common.FileStore` fails, and the cached file (its byte length) if present. -/
structure FS where
  existsErr : Bool
  sizeErr : Bool
  mkdirErr : Bool
  storeErr : Bool
  file : Option Nat
deriving DecidableEq

/-- Observable effects of `download`, in execution order. -/
inductive Eff where
  | head
  | get
  | mkdir
  | store
deriving DecidableEq

/-- Error results of `download`. -/
inductive DlErr where
  | headFail
  | sizeFail
  | getFail
  | mkdirFail
  | storeFail
deriving DecidableEq

/-- The `mustDownload` branch of `download` (main.go lines 179-205): GET the
body, create the parent directories, store the body over the local file. -/
def doFetch (net : Net) (fs : FS) (pre : List Eff) : Except DlErr FS × List Eff :=
  if !net.getOk then (.error .getFail, pre ++ [.get])
  else if fs.mkdirErr then (.error .mkdirFail, pre ++ [.get, .mkdir])
  else if fs.storeErr then (.error .storeFail, pre ++ [.get, .mkdir, .store])
  else (.ok { fs with file := some net.contentLen }, pre ++ [.get, .mkdir, .store])

/-- `download` (main.go lines 148-208).  Note line 151: when
`common.FileExists` itself fails, the function returns `nil` (success) without
doing anything — this is the literal code, not the documented contract. -/
def download (net : Net) (fs : FS) : Except DlErr FS × List Eff :=
  if fs.existsErr then (.ok fs, [])
  else match fs.file with
  | none => doFetch net fs []
  | some len =>
    if !net.headOk then (.error .headFail, [.head])
    else if fs.sizeErr then (.error .sizeFail, [.head])
    else if len ≠ net.contentLen then doFetch net fs [.head]
    else (.ok fs, [.head])

/-! ## Descriptor model (main.go lines 24-120)

A descriptor is modelled together with the outcome flags of the network and
decoding steps that produce it, since those are external to the program:
`FetchFlags` records whether the GET of the descriptor succeeds, whether
reading its body succeeds, the HTTP status code, whether `url.Parse` of the
address succeeds and whether the XML decode succeeds.  Each artifact carries
the outcome of `u.Parse` on its resolved URL (`parseOk`) and whether its
asynchronous `runResource` task records an error (`taskErr`), which abstracts
the download/unzip/self-extract failure cases of `runResource`. -/

/-- A `j2se`/`java` element: only the max-heap-size attribute is read. -/
structure HeapHint where
  version : Str
  maxHeapSize : Str
deriving DecidableEq

/-- A `jar` or `nativelib` element. -/
structure ArtRef where
  href : Str
  parseOk : Bool
  taskErr : Bool
deriving DecidableEq

/-- A `private_jre` element. -/
structure PJre where
  os : Str
  arch : Str
  href : Str
  parseOk : Bool
  taskErr : Bool
deriving DecidableEq

/-- An `application-desc` or `applet-desc` element: entry point plus ordered
argument/parameter texts. -/
structure LaunchDesc where
  mainClass : Str
  args : List Str
deriving DecidableEq

/-- Outcomes of the descriptor-fetch stage of one `runJnlp` invocation
(main.go lines 300-357). -/
structure FetchFlags where
  getOk : Bool
  readOk : Bool
  status : Nat
  parseOk : Bool
  decodeOk : Bool
deriving DecidableEq

mutual
/-- A descriptor source: its fetch-stage outcomes, the sanitized host of its
URL (`common.Trim4Path(u.Host)`), its codebase, its resource groups, its
private JREs and its two launch blocks. -/
inductive JnlpSrc where
  | mk (ff : FetchFlags) (host codebase : Str) (rs : ResList) (jres : List PJre)
      (app applet : LaunchDesc)
/-- The list of `resources` elements of a descriptor. -/
inductive ResList where
  | nil
  | cons (r : Res) (rest : ResList)
/-- One `resources` element: platform filter, heap hints, jars, nativelibs
and extensions. -/
inductive Res where
  | mk (os arch : Str) (j2se java : List HeapHint) (jars libs : List ArtRef) (exts : ExtList)
/-- The list of `extension` elements of one resource group. -/
inductive ExtList where
  | nil
  | cons (e : ExtRef) (rest : ExtList)
/-- One `extension` element: its href, the outcome of resolving its URL, and
the descriptor its URL points to. -/
inductive ExtRef where
  | mk (href : Str) (parseOk : Bool) (sub : JnlpSrc)
end

/-- The launch-relevant part of a decoded descriptor that `run` reads after
resolution (`jnlp.ApplicationDesc`, `jnlp.AppletDesc`). -/
structure LaunchDoc where
  app : LaunchDesc
  applet : LaunchDesc
deriving DecidableEq

/-- The process-wide configuration: `*cache`, the runtime OS name
(`operatingsystem`) and the configured architecture (`*arch`). -/
structure Cfg where
  cache : Str
  os : Str
  arch : Str
deriving DecidableEq

/-- Synchronization-relevant operations of the scheduling loops, in program
order: `wg.Add(1)`, `go runResource(...)`, a synchronous `runResource(...)`
call, and `go runJnlp(...)` for an extension (spawned without a prior
`wg.Add`, see the commented-out line 406). -/
inductive SchedOp where
  | add
  | spawnTask
  | syncTask
  | spawnSub
deriving DecidableEq

/-- The mutable shared state of the resolution: the classpath accumulator
`jars`, the native-library accumulator `nativelibs`, the heap hint
`maxheapsize`, the runtime executable path `*jrepath`, the number of errors
recorded in the `common.ChannelError` aggregator, and the trace of
synchronization operations performed so far. -/
structure GState where
  jars : Str
  nativelibs : Str
  maxheapsize : Str
  jrepath : Str
  errs : Nat
  trace : List SchedOp
deriving DecidableEq

/-- `channelError.Add(err)`. -/
def addErr (s : GState) : GState := { s with errs := s.errs + 1 }

/-- Record one synchronization operation in the trace. -/
def pushOp (op : SchedOp) (s : GState) : GState := { s with trace := s.trace ++ [op] }

/-- Result of a scheduling-loop walk: the process exited, the enclosing
`runJnlp` returned `nil` early (after recording an error), or the walk
completed. -/
inductive WalkR where
  | exited
  | earlyNil (s : GState)
  | ok (s : GState)
deriving DecidableEq

/-- Result of one `runJnlp` invocation: the process exited via `os.Exit(1)`,
or the call returned (with the decoded launch blocks, or `nil`). -/
inductive RunResult where
  | exited
  | done (doc : Option LaunchDoc) (s : GState)
deriving DecidableEq

/-- Outcomes of the descriptor-fetch stage (main.go lines 300-357): an error
was added to the aggregator and `nil` returned, the process exited via
`os.Exit(1)`, or the descriptor was decoded. -/
inductive FetchR where
  | errNil
  | exit
  | okF
deriving DecidableEq

/-- The descriptor-fetch stage of `runJnlp` (main.go lines 300-357), in code
order: GET failure and body-read failure add an error and return `nil`; a
non-200 status calls `os.Exit(1)`; `url.Parse` failure and XML decode failure
add an error and return `nil`.  The stage does not depend on whether this is
the root invocation. -/
def fetchPhase (ff : FetchFlags) : FetchR :=
  if !ff.getOk then .errNil
  else if !ff.readOk then .errNil
  else if ff.status ≠ 200 then .exit
  else if !ff.parseOk then .errNil
  else if !ff.decodeOk then .errNil
  else .okF

/-- `jnlpPath` (main.go line 339): `filepath.Join(*cache, common.Trim4Path(u.Host))`. -/
def jnlpPathOf (cache host : Str) : Str := joinP cache host

/-- `appPath` (main.go line 341): `filepath.Join(jnlpPath, "app")`. -/
def appPathOf (cache host : Str) : Str := joinP (jnlpPathOf cache host) (strLit "app")

/-- A jar or nativelib cache path (main.go lines 386 and 426):
`filepath.Join(appPath, href)`. -/
def jarPathOf (appPath href : Str) : Str := joinP appPath href

/-- A private-JRE cache path (main.go line 481):
`filepath.Join(jnlpPath, jre.Arch, filename)` with `filename` the last
segment of the href. -/
def jrePathOf (jnlpPath arch href : Str) : Str := joinP (joinP jnlpPath arch) (lastSeg href)

/-- The jar loop of `runJnlp` (main.go lines 380-400): for each jar,
`wg.Add(1)`; resolve its URL (failure adds an error and returns `nil` from
`runJnlp`); append its cache path to the `jars` accumulator under the mutex;
spawn `runResource` asynchronously. -/
def runJarList (appPath : Str) (js : List ArtRef) (s : GState) : WalkR :=
  match js with
  | [] => .ok s
  | j :: rest =>
    let s1 := pushOp .add s
    if !j.parseOk then .earlyNil (addErr s1)
    else
      let path := jarPathOf appPath j.href
      let s2 := { s1 with jars := appendSep s1.jars path }
      let s3 := pushOp .spawnTask s2
      let s4 := if j.taskErr then addErr s3 else s3
      runJarList appPath rest s4

/-- The nativelib loop of `runJnlp` (main.go lines 420-440): like the jar
loop, but the directory of the cache path is appended to the `nativelibs`
accumulator and the task unzips the archive. -/
def runLibList (appPath : Str) (js : List ArtRef) (s : GState) : WalkR :=
  match js with
  | [] => .ok s
  | j :: rest =>
    let s1 := pushOp .add s
    if !j.parseOk then .earlyNil (addErr s1)
    else
      let path := jarPathOf appPath j.href
      let s2 := { s1 with nativelibs := appendSep s1.nativelibs (dirP path) }
      let s3 := pushOp .spawnTask s2
      let s4 := if j.taskErr then addErr s3 else s3
      runLibList appPath rest s4

/-- The private-JRE loop of `runJnlp` (main.go lines 461-498): for each JRE
whose platform filter matches, `wg.Add(1)`; compute the filename and the
cache path; resolve the URL (failure adds an error and returns `nil`); when
this is the root invocation, set `*jrepath` under the mutex to
`filepath.Join(filepath.Dir(jre.Path), "bin", "javaw")`; then run
`runResource` synchronously with self-extraction. -/
def runJreList (cfg : Cfg) (doHeader : Bool) (jnlpPath : Str) (js : List PJre)
    (s : GState) : WalkR :=
  match js with
  | [] => .ok s
  | j :: rest =>
    if jreActive j.os j.arch cfg.os cfg.arch then
      let s1 := pushOp .add s
      let path := jrePathOf jnlpPath j.arch j.href
      if !j.parseOk then .earlyNil (addErr s1)
      else
        let s2 :=
          if doHeader then
            { s1 with jrepath := joinP (joinP (dirP path) (strLit "bin")) (strLit "javaw") }
          else s1
        let s3 := pushOp .syncTask s2
        let s4 := if j.taskErr then addErr s3 else s3
        runJreList cfg doHeader jnlpPath rest s4
    else runJreList cfg doHeader jnlpPath rest s

/-- The heap-hint collection of `runJnlp` (main.go lines 442-456), performed
only when `doHeader` is set: every `j2se` element overwrites `maxheapsize`
(the last one wins); if it is empty afterwards, the `java` elements are
scanned the same way. -/
def lastHeapOf (cur : Str) (hs : List HeapHint) : Str :=
  hs.foldl (fun _ h => h.maxHeapSize) cur

/-- The `doHeader` block of one active resource group (main.go lines 442-456). -/
def headerUpdate (doHeader : Bool) (j2se java : List HeapHint) (s : GState) : GState :=
  if doHeader then
    let m1 := lastHeapOf s.maxheapsize j2se
    let m2 := if m1.length == 0 then lastHeapOf m1 java else m1
    { s with maxheapsize := m2 }
  else s

mutual
/-- `runJnlp` (main.go lines 298-501), sequentialized: the descriptor-fetch
stage, then the resource groups in order, then the private JREs.  Asynchronous
tasks are executed inline at their spawn point; the trace records which spawns
were registered with the `WaitGroup` barrier first. -/
def runJnlpM (cfg : Cfg) (doHeader : Bool) (src : JnlpSrc) (s : GState) : RunResult :=
  match src with
  | .mk ff host _codebase rs jres app applet =>
    match fetchPhase ff with
    | .errNil => .done none (addErr s)
    | .exit => .exited
    | .okF =>
      match runResListM cfg doHeader (appPathOf cfg.cache host) rs s with
      | .exited => .exited
      | .earlyNil s1 => .done none s1
      | .ok s1 =>
        match runJreList cfg doHeader (jnlpPathOf cfg.cache host) jres s1 with
        | .exited => .exited
        | .earlyNil s2 => .done none s2
        | .ok s2 => .done (some ⟨app, applet⟩) s2

/-- The loop over `jnlp.Resources` (main.go line 366). -/
def runResListM (cfg : Cfg) (doHeader : Bool) (appPath : Str) (rs : ResList)
    (s : GState) : WalkR :=
  match rs with
  | .nil => .ok s
  | .cons r rest =>
    match runResM cfg doHeader appPath r s with
    | .exited => .exited
    | .earlyNil s1 => .earlyNil s1
    | .ok s1 => runResListM cfg doHeader appPath rest s1

/-- One resource group (main.go lines 366-457): when the platform filter
matches, walk its jars, then its extensions, then its nativelibs, then
collect the heap hint when this is the root invocation. -/
def runResM (cfg : Cfg) (doHeader : Bool) (appPath : Str) (r : Res) (s : GState) : WalkR :=
  match r with
  | .mk os arch j2se java jars libs exts =>
    if resActive os arch cfg.os cfg.arch then
      match runJarList appPath jars s with
      | .exited => .exited
      | .earlyNil s1 => .earlyNil s1
      | .ok s1 =>
        match runExtListM cfg appPath exts s1 with
        | .exited => .exited
        | .earlyNil s2 => .earlyNil s2
        | .ok s2 =>
          match runLibList appPath libs s2 with
          | .exited => .exited
          | .earlyNil s3 => .earlyNil s3
          | .ok s3 => .ok (headerUpdate doHeader j2se java s3)
    else .ok s

/-- The extension loop (main.go lines 403-417): resolve the extension URL
(failure adds an error and returns `nil`); then `go runJnlp(extension.URL,
false, channelError)` WITHOUT a prior `wg.Add(1)` (line 406 is commented
out), recorded as a `spawnSub` trace operation; the sub-invocation's returned
descriptor is discarded. -/
def runExtListM (cfg : Cfg) (appPath : Str) (es : ExtList) (s : GState) : WalkR :=
  match es with
  | .nil => .ok s
  | .cons e rest =>
    match e with
    | .mk _href parseOk sub =>
      if !parseOk then .earlyNil (addErr s)
      else
        let s1 := pushOp .spawnSub s
        match runJnlpM cfg false sub s1 with
        | .exited => .exited
        | .done _ s2 => runExtListM cfg appPath rest s2
end

/-! ## The join barrier -/

/-- Whether a trace of synchronization operations is fully covered by the
`WaitGroup` barrier: processed left to right with a counter of outstanding
registrations, `add` increments it; a spawned or synchronously run task
consumes one prior registration (that is the `wg.Add(1); go f()` discipline
under which `wg.Wait()` is guaranteed to wait for the task); a sub-resolution
spawn likewise needs a prior registration, otherwise `wg.Wait()` can return
before the sub-resolution has run at all.  At the end every registration must
have been consumed (otherwise `wg.Wait()` never returns). -/
def coveredFrom : Nat → List SchedOp → Bool
  | n, [] => n == 0
  | n, SchedOp.add :: r => coveredFrom (n + 1) r
  | n, SchedOp.spawnTask :: r => decide (0 < n) && coveredFrom (n - 1) r
  | n, SchedOp.syncTask :: r => decide (0 < n) && coveredFrom (n - 1) r
  | n, SchedOp.spawnSub :: r => decide (0 < n) && coveredFrom (n - 1) r

/-- The join-completeness property of a trace. -/
def joinCovered (l : List SchedOp) : Bool := coveredFrom 0 l

/-- The trace of a resolution result (empty when the process exited). -/
def traceOf : RunResult → List SchedOp
  | .exited => []
  | .done _ s => s.trace

/-! ## `run` (main.go lines 503-601) -/

/-- The launch outcome of `run`: the process exited during resolution, an
aggregated error was reported (non-zero exit, no launch), the code would
dereference a `nil` descriptor, or a child process is started with the given
executable and argument list. -/
inductive RunOut where
  | exited
  | errReported
  | nilDeref
  | launch (exe : Str) (cmds : List Str)
deriving DecidableEq

/-- The default runtime executable on Linux (main.go lines 537-544). -/
def defaultJre : Str := strLit "java"

/-- The command-line assembly of `run` (main.go lines 557-590): optional
`-Xmx` flag, optional `-Djava.library.path=` flag, `-cp` with the jars
accumulator, then the application entry point and arguments when
`ApplicationDesc.MainClass` is non-empty, else the applet entry point and
parameters. -/
def buildCmds (maxheap nativelibs jars : Str) (d : LaunchDoc) : List Str :=
  (if maxheap.length > 0 then [strLit "-Xmx" ++ maxheap] else []) ++
  (if nativelibs ≠ [] then [strLit "-Djava.library.path=" ++ nativelibs] else []) ++
  [strLit "-cp", jars] ++
  (if d.app.mainClass ≠ [] then d.app.mainClass :: d.app.args
   else d.applet.mainClass :: d.applet.args)

/-- The initial shared state of a run. -/
def initState (jrepath0 : Str) : GState := ⟨[], [], [], jrepath0, 0, []⟩

/-- `run` (main.go lines 503-601), after flag handling: default the runtime
executable when no `-jre` flag was given, resolve the root descriptor with
`doHeader = true`, wait on the barrier, report an aggregated error if any,
otherwise assemble and start the launch command. -/
def runM (cfg : Cfg) (jreFlag : Str) (src : JnlpSrc) : RunOut :=
  match runJnlpM cfg true src
      (initState (if jreFlag.length == 0 then defaultJre else jreFlag)) with
  | .exited => .exited
  | .done doc s =>
    if s.errs > 0 then .errReported
    else
      match doc with
      | none => .nilDeref
      | some d => .launch s.jrepath (buildCmds s.maxheapsize s.nativelibs s.jars d)

/-- Whether a run outcome is the `nil`-descriptor dereference. -/
def isNilDeref : RunOut → Bool
  | .nilDeref => true
  | _ => false

/-! ## Concrete inputs used by the claim witnesses and counterexamples -/

/-- A Linux amd64 configuration with cache root `cr`. -/
def cfg0 : Cfg := ⟨strLit "cr", strLit "LINUX", strLit "amd64"⟩

/-- An unfiltered resource group with the single jar `x.jar`. -/
def c2Res : Res := .mk [] [] [] [] [⟨strLit "x.jar", true, false⟩] [] .nil

/-- The C2 scenario descriptor: codebase `http://h/app`, one active jar
`x.jar`, no private runtime, no heap hint, application entry point `Main`. -/
def c2Src : JnlpSrc :=
  .mk ⟨true, true, 200, true, true⟩ (strLit "h") (strLit "http://h/app")
    (.cons c2Res .nil) [] ⟨strLit "Main", []⟩ ⟨[], []⟩

/-- The extension sub-descriptor of the C1 input: one jar `y.jar`. -/
def c1Sub : JnlpSrc :=
  .mk ⟨true, true, 200, true, true⟩ (strLit "e") (strLit "http://e/app")
    (.cons (.mk [] [] [] [] [⟨strLit "y.jar", true, false⟩] [] .nil) .nil) []
    ⟨[], []⟩ ⟨[], []⟩

/-- The C1 input: one active resource group with the jar `x.jar` and an
extension whose descriptor contains the jar `y.jar`. -/
def c1Src : JnlpSrc :=
  .mk ⟨true, true, 200, true, true⟩ (strLit "h") (strLit "http://h/app")
    (.cons (.mk [] [] [] [] [⟨strLit "x.jar", true, false⟩] []
      (.cons (.mk (strLit "sub.jnlp") true c1Sub) .nil)) .nil) []
    ⟨strLit "Main", []⟩ ⟨[], []⟩

/-- The extension sub-descriptor of the C5 input: its fetch returns HTTP 404. -/
def c5Sub : JnlpSrc :=
  .mk ⟨true, true, 404, true, true⟩ (strLit "e") (strLit "http://e/app") .nil []
    ⟨[], []⟩ ⟨[], []⟩

/-- The C5 input: an otherwise healthy root descriptor with one sibling jar
and an extension whose descriptor fetch returns a non-success HTTP status. -/
def c5Src : JnlpSrc :=
  .mk ⟨true, true, 200, true, true⟩ (strLit "h") (strLit "http://h/app")
    (.cons (.mk [] [] [] [] [⟨strLit "x.jar", true, false⟩] []
      (.cons (.mk (strLit "bad.jnlp") true c5Sub) .nil)) .nil) []
    ⟨strLit "Main", []⟩ ⟨[], []⟩

/-- A concrete remote resource for the C4 evaluation. -/
def net0 : Net := ⟨true, true, 5⟩

/-- A filesystem state whose existence check fails (`common.FileExists`
returns an error) and whose cached file is absent. -/
def fsStatFail : FS := ⟨true, false, false, false, none⟩

/-! ## Frame and monotonicity predicates on results -/

/-- The header fields (`maxheapsize` and `*jrepath`) of the result state
equal those of the given initial state (trivially satisfied when the process
exited, since no state is returned then). -/
def headersKept : RunResult → GState → Prop
  | .exited, _ => True
  | .done _ s1, s0 => s1.maxheapsize = s0.maxheapsize ∧ s1.jrepath = s0.jrepath

/-- `headersKept` for a scheduling-loop walk result. -/
def headersKeptW : WalkR → GState → Prop
  | .exited, _ => True
  | .earlyNil s1, s0 => s1.maxheapsize = s0.maxheapsize ∧ s1.jrepath = s0.jrepath
  | .ok s1, s0 => s1.maxheapsize = s0.maxheapsize ∧ s1.jrepath = s0.jrepath

/-- Error-aggregator monotonicity of a walk result: a completed walk never
removes recorded errors, and an early `nil` return records strictly more than
the initial state had. -/
def errsLeW : WalkR → GState → Prop
  | .exited, _ => True
  | .earlyNil s1, s0 => s0.errs < s1.errs
  | .ok s1, s0 => s0.errs ≤ s1.errs

/-- Error-aggregator monotonicity of a `runJnlp` result: a returned `nil`
descriptor comes with strictly more recorded errors than the initial state
had; a decoded descriptor with at least as many. -/
def errsLeR : RunResult → GState → Prop
  | .exited, _ => True
  | .done none s1, s0 => s0.errs < s1.errs
  | .done (some _) s1, s0 => s0.errs ≤ s1.errs

/-! ## Lemmas about the case operations -/

theorem upCode_upCode (n : Nat) : upCode (upCode n) = upCode n := by
  unfold upCode
  split_ifs <;> omega

theorem titleGo_map_upCode (s : Str) : ∀ b : Bool, (titleGo b s).map upCode = s.map upCode := by
  induction s with
  | nil => intro b; rfl
  | cons c cs ih =>
    intro b
    cases b <;> simp [titleGo, ih, upCode_upCode]

theorem toTitleGo_map_upCode (s : Str) : (toTitleGo s).map upCode = s.map upCode := by
  unfold toTitleGo
  induction s with
  | nil => rfl
  | cons c cs ih => simp [ih, upCode_upCode]

theorem eqIC_titleGo (a b : Str) : eqIC (titleGo true a) b = eqIC a b := by
  unfold eqIC
  rw [titleGo_map_upCode]

theorem eqIC_toTitleGo (a b : Str) : eqIC (toTitleGo a) b = eqIC a b := by
  unfold eqIC
  rw [toTitleGo_map_upCode]

theorem titleGo_length (s : Str) : ∀ b : Bool, (titleGo b s).length = s.length := by
  induction s with
  | nil => intro b; rfl
  | cons c cs ih => intro b; simp [titleGo, ih]

theorem toTitleGo_length (s : Str) : (toTitleGo s).length = s.length := by
  simp [toTitleGo]

/-- C6.  Platform filter: for all filter and runtime values, a resource group
is selected as active iff (the os filter is empty or case-insensitively equal
to the runtime os) and (the arch filter is empty or case-insensitively equal
to the configured architecture); the `strings.Title`/`strings.ToTitle`
normalization the code applies first never changes the predicate's value. -/
theorem C6_platform_filter (os arch cfgOs cfgArch : Str) :
    resActive os arch cfgOs cfgArch =
      ((os.length == 0 || eqIC os cfgOs) && (arch.length == 0 || eqIC arch cfgArch)) := by
  unfold resActive
  have harch : ((if arch.length > 0 then titleGo true arch else arch).length == 0 ||
      eqIC (if arch.length > 0 then titleGo true arch else arch) cfgArch) =
      (arch.length == 0 || eqIC arch cfgArch) := by
    split_ifs with h
    · rw [titleGo_length, eqIC_titleGo]
    · rfl
  have hos : ((if os.length > 0 then toTitleGo os else os).length == 0 ||
      eqIC (if os.length > 0 then toTitleGo os else os) cfgOs) =
      (os.length == 0 || eqIC os cfgOs) := by
    split_ifs with h
    · rw [toTitleGo_length, eqIC_toTitleGo]
    · rfl
  dsimp only
  rw [harch, hos, Bool.and_comm]

/-! ## Lemmas about cache paths -/

theorem joinP_ne (a b : Str) (ha : a ≠ []) (hb : b ≠ []) : joinP a b = a ++ slash :: b := by
  simp [joinP, ha, hb]

theorem append_cons_ne (a : Str) (c : Nat) (b : Str) : a ++ c :: b ≠ [] := by
  simp

/-- C8 counterexample: the private runtime `dir/j.exe` with empty `os` and
`arch` filters matches every platform, yet its cache path `c/h/j.exe`
contains no architecture segment at all (it has two separators, not three,
and differs from the literal interpolation `c/h//j.exe` of the claimed
layout). -/
theorem C8_counterexample :
    jreActive [] [] (strLit "LINUX") (strLit "amd64") = true ∧
    jrePathOf (jnlpPathOf (strLit "c") (strLit "h")) [] (strLit "dir/j.exe") =
      strLit "c/h/j.exe" ∧
    strLit "c/h/j.exe" ≠ strLit "c/h//j.exe" ∧
    List.count slash (strLit "c/h/j.exe") = 2 := by
  decide

/-- C8 as amended: jars and nativelibs are cached at
`cacheRoot/host/app/href`; a matching private runtime is cached at
`cacheRoot/host/arch/filename` where `arch` is the runtime's own `arch`
attribute and `filename` the last segment of its href — but when the `arch`
attribute is empty (which still matches every platform), the architecture
segment is absent and the path is `cacheRoot/host/filename`. -/
theorem C8_cache_layout (cache host href arch jrehref : Str)
    (hc : cache ≠ []) (hh : host ≠ []) (hr : href ≠ []) (hf : lastSeg jrehref ≠ []) :
    jarPathOf (appPathOf cache host) href =
      cache ++ slash :: (host ++ slash :: (strLit "app" ++ slash :: href)) ∧
    (arch ≠ [] →
      jrePathOf (jnlpPathOf cache host) arch jrehref =
        cache ++ slash :: (host ++ slash :: (arch ++ slash :: lastSeg jrehref))) ∧
    (arch = [] →
      jrePathOf (jnlpPathOf cache host) arch jrehref =
        cache ++ slash :: (host ++ slash :: lastSeg jrehref)) := by
  have h1 : jnlpPathOf cache host = cache ++ slash :: host := joinP_ne _ _ hc hh
  refine ⟨?_, ?_, ?_⟩
  · unfold jarPathOf appPathOf
    rw [h1, joinP_ne _ _ (append_cons_ne _ _ _) (by decide),
      joinP_ne _ _ (append_cons_ne _ _ _) hr]
    simp
  · intro ha
    unfold jrePathOf
    rw [h1, joinP_ne _ _ (append_cons_ne _ _ _) ha,
      joinP_ne _ _ (append_cons_ne _ _ _) hf]
    simp
  · intro ha
    subst ha
    unfold jrePathOf joinP
    rw [h1]
    simp [append_cons_ne, hf]

/-- C8 witness: the amended layout at concrete values. -/
theorem C8_witness :
    jarPathOf (appPathOf (strLit "c") (strLit "h")) (strLit "lib/x.jar") =
      strLit "c" ++ slash :: (strLit "h" ++ slash :: (strLit "app" ++ slash :: strLit "lib/x.jar")) ∧
    (strLit "x86" ≠ [] →
      jrePathOf (jnlpPathOf (strLit "c") (strLit "h")) (strLit "x86") (strLit "dir/j.exe") =
        strLit "c" ++ slash :: (strLit "h" ++ slash :: (strLit "x86" ++ slash :: lastSeg (strLit "dir/j.exe")))) ∧
    (strLit "x86" = [] →
      jrePathOf (jnlpPathOf (strLit "c") (strLit "h")) (strLit "x86") (strLit "dir/j.exe") =
        strLit "c" ++ slash :: (strLit "h" ++ slash :: lastSeg (strLit "dir/j.exe"))) :=
  C8_cache_layout (strLit "c") (strLit "h") (strLit "lib/x.jar") (strLit "x86")
    (strLit "dir/j.exe") (by decide) (by decide) (by decide) (by decide)

/-! ## Cache Reconciler theorems -/

/-- C3.  Cache reconciliation, whenever the local existence/length probes
themselves succeed: the body fetch (`GET`) is performed iff the local file is
absent or its length differs from the remote's declared content length; when
the lengths match only the metadata-only `HEAD` request happens; and whenever
the call returns without error, the local file has exactly the declared
content length, a successful fetch created the parent directories before
overwriting the file, and a second call performs no body transfer (cache
idempotence). -/
theorem C3_cache_reconciliation (net : Net) (fs : FS)
    (he : fs.existsErr = false) (hh : net.headOk = true) (hs : fs.sizeErr = false) :
    (Eff.get ∈ (download net fs).2 ↔ fs.file ≠ some net.contentLen) ∧
    (fs.file = some net.contentLen → (download net fs).2 = [Eff.head]) ∧
    (∀ fs', (download net fs).1 = .ok fs' →
      fs'.file = some net.contentLen ∧
      (Eff.get ∈ (download net fs).2 →
        List.Sublist [Eff.get, Eff.mkdir, Eff.store] (download net fs).2) ∧
      (download net fs').2 = [Eff.head]) := by
  obtain ⟨ee, se, me, ste, file⟩ := fs
  simp only at he hs
  subst he hs
  cases file with
  | none =>
    simp only [download, doFetch, Bool.not_eq_true']
    cases hg : net.getOk <;> cases me <;> cases ste <;>
      simp_all [download, doFetch, hh]
  | some len =>
    by_cases hlen : len = net.contentLen
    · subst hlen
      simp_all [download, doFetch]
    · simp only [download, doFetch, hh, Bool.not_true, Bool.false_eq_true, if_false,
        if_neg, hlen, ne_eq, not_false_iff, if_true]
      cases hg : net.getOk <;> cases me <;> cases ste <;>
        simp_all [download, doFetch, hh, hlen]

/-- C3 witness: a stale cached file of length 3 against a remote of declared
length 5 is re-fetched; afterwards the file has length 5. -/
theorem C3_witness :
    ((⟨false, false, false, false, some 3⟩ : FS).existsErr = false) ∧
    ((⟨true, true, 5⟩ : Net).headOk = true) ∧
    ((⟨false, false, false, false, some 3⟩ : FS).sizeErr = false) ∧
    ((Eff.get ∈ (download ⟨true, true, 5⟩ ⟨false, false, false, false, some 3⟩).2 ↔
        (⟨false, false, false, false, some 3⟩ : FS).file ≠ some (5 : Nat)) ∧
      ((⟨false, false, false, false, some 3⟩ : FS).file = some (5 : Nat) →
        (download ⟨true, true, 5⟩ ⟨false, false, false, false, some 3⟩).2 = [Eff.head]) ∧
      (∀ fs', (download ⟨true, true, 5⟩ ⟨false, false, false, false, some 3⟩).1 = .ok fs' →
        fs'.file = some (5 : Nat) ∧
        (Eff.get ∈ (download ⟨true, true, 5⟩ ⟨false, false, false, false, some 3⟩).2 →
          List.Sublist [Eff.get, Eff.mkdir, Eff.store]
            (download ⟨true, true, 5⟩ ⟨false, false, false, false, some 3⟩).2) ∧
        (download ⟨true, true, 5⟩ fs').2 = [Eff.head])) :=
  ⟨rfl, rfl, rfl,
    C3_cache_reconciliation ⟨true, true, 5⟩ ⟨false, false, false, false, some 3⟩ rfl rfl rfl⟩

/-- C4.  The code, evaluated at the failing input: when the existence/stat
check (`common.FileExists`) fails, `download` returns success (`nil`) having
performed no request and no write at all — even though the cached file is
absent — instead of propagating the filesystem failure (main.go line 151
reads `return nil` where every other error path returns the error). -/
theorem C4_stat_failure_swallowed :
    download net0 fsStatFail = (.ok fsStatFail, []) ∧ fsStatFail.file = none := by
  exact ⟨rfl, rfl⟩

/-! ## Launch Assembler theorems -/

/-- C7.  Launch precedence: when both launch blocks have a non-empty entry
point, the assembled command is the optional flags followed by the
application's entry point and its ordered arguments, and the result does not
depend on the applet block at all (so no applet entry point or parameter text
is contributed by it). -/
theorem C7_launch_precedence (maxheap nativelibs jars : Str) (app applet : LaunchDesc)
    (ha : app.mainClass ≠ []) (_hb : applet.mainClass ≠ []) :
    buildCmds maxheap nativelibs jars ⟨app, applet⟩ =
      (if maxheap.length > 0 then [strLit "-Xmx" ++ maxheap] else []) ++
      (if nativelibs ≠ [] then [strLit "-Djava.library.path=" ++ nativelibs] else []) ++
      [strLit "-cp", jars] ++ (app.mainClass :: app.args) ∧
    (∀ applet2 : LaunchDesc,
      buildCmds maxheap nativelibs jars ⟨app, applet2⟩ =
        buildCmds maxheap nativelibs jars ⟨app, applet⟩) := by
  refine ⟨?_, ?_⟩
  · simp [buildCmds, ha]
  · intro applet2
    simp [buildCmds, ha]

/-- C7 witness: both blocks populated, heap hint and native libraries absent. -/
theorem C7_witness :
    (strLit "App" ≠ ([] : Str)) ∧ (strLit "Applet" ≠ ([] : Str)) ∧
    (buildCmds [] [] (strLit "cp.jar") ⟨⟨strLit "App", [strLit "a1"]⟩, ⟨strLit "Applet", [strLit "p1"]⟩⟩ =
      (if ([] : Str).length > 0 then [strLit "-Xmx" ++ []] else []) ++
      (if ([] : Str) ≠ [] then [strLit "-Djava.library.path=" ++ []] else []) ++
      [strLit "-cp", strLit "cp.jar"] ++ (strLit "App" :: [strLit "a1"]) ∧
    (∀ applet2 : LaunchDesc,
      buildCmds [] [] (strLit "cp.jar") ⟨⟨strLit "App", [strLit "a1"]⟩, applet2⟩ =
        buildCmds [] [] (strLit "cp.jar")
          ⟨⟨strLit "App", [strLit "a1"]⟩, ⟨strLit "Applet", [strLit "p1"]⟩⟩)) :=
  ⟨by decide, by decide,
    C7_launch_precedence [] [] (strLit "cp.jar") ⟨strLit "App", [strLit "a1"]⟩
      ⟨strLit "Applet", [strLit "p1"]⟩ (by decide) (by decide)⟩

/-! ## Failure isolation and the descriptor-fetch exit -/

/-- C5 counterexample: a healthy root descriptor whose active resource group
contains a sibling jar and an extension; fetching the nested extension
descriptor returns HTTP 404, and the whole run terminates via `os.Exit(1)`
(modelled by the `exited` outcome) — the failure is not added to the error
aggregator and the already-scheduled sibling task does not proceed to a
normal join. -/
theorem C5_counterexample : runM cfg0 [] c5Src = .exited := by decide

/-- C5 as amended: inside the descriptor-fetch stage, the process-terminating
`os.Exit(1)` is taken exactly when the GET and the body read succeed and the
HTTP status is not 200 — for the root and for every nested extension
sub-invocation alike (the stage does not depend on which invocation runs it);
all other fetch-stage failures add an error to the aggregator and end only
that invocation. -/
theorem C5_fetch_exit_iff (ff : FetchFlags) :
    (fetchPhase ff = .exit ↔ (ff.getOk = true ∧ ff.readOk = true ∧ ff.status ≠ 200)) ∧
    (fetchPhase ff = .errNil ↔
      (ff.getOk = false ∨ (ff.getOk = true ∧ ff.readOk = false) ∨
        (ff.getOk = true ∧ ff.readOk = true ∧ ff.status = 200 ∧
          (ff.parseOk = false ∨ (ff.parseOk = true ∧ ff.decodeOk = false))))) := by
  obtain ⟨g, r, st, p, d⟩ := ff
  by_cases hst : st = 200 <;>
    cases g <;> cases r <;> cases p <;> cases d <;>
      simp_all [fetchPhase]

/-! ## The join gap (C1) -/

/-- C1.  The code, evaluated at the failing input: for a root descriptor whose
active resource group schedules one jar and one extension (whose own
descriptor schedules another jar), the synchronization trace registers the
two jar tasks with the barrier before spawning them, but spawns the extension
sub-resolution with no prior registration (`wg.Add(1)` is commented out at
main.go line 406) — so the trace is not covered by the join barrier:
`wg.Wait()` is not guaranteed to wait for the sub-resolution or for anything
it transitively schedules. -/
theorem C1_join_gap :
    traceOf (runJnlpM cfg0 true c1Src (initState defaultJre)) =
      [.add, .spawnTask, .spawnSub, .add, .spawnTask] ∧
    joinCovered (traceOf (runJnlpM cfg0 true c1Src (initState defaultJre))) = false := by
  decide

/-! ## The classpath scenario (C2) -/

/-- C2 counterexample: in the claimed scenario (codebase `http://h/app`, one
active jar `x.jar`, no private runtime, no heap hint, cache root `cr`), the
assembled command's classpath argument is `:cr/h/app/x.jar` — it starts with
the list separator, i.e. the accumulator contains a leading empty entry
(main.go line 395 joins the initially empty accumulator and the first path
with a separator in between), so it is not the claimed single entry
`cr/h/app/x.jar`. -/
theorem C2_counterexample :
    runM cfg0 [] c2Src =
      .launch (strLit "java") [strLit "-cp", strLit ":cr/h/app/x.jar", strLit "Main"] ∧
    strLit ":cr/h/app/x.jar" ≠ strLit "cr/h/app/x.jar" ∧
    (strLit ":cr/h/app/x.jar").head? = some colon := by
  decide

/-- C2 as amended: in the claimed scenario the classpath accumulator is the
list separator followed by `cacheRoot/h/app/x.jar` (a leading empty entry
plus the single jar path), and the assembled command is
`java -cp <sep>cacheRoot/h/app/x.jar Main`. -/
theorem C2_amended (cache : Str) (hc : cache ≠ []) :
    runM ⟨cache, strLit "LINUX", strLit "amd64"⟩ [] c2Src =
      .launch (strLit "java")
        [strLit "-cp", colon :: (cache ++ slash :: strLit "h/app/x.jar"), strLit "Main"] := by
  have hjar : jarPathOf (appPathOf cache (strLit "h")) (strLit "x.jar") =
      cache ++ slash :: strLit "h/app/x.jar" := by
    unfold jarPathOf appPathOf jnlpPathOf
    rw [joinP_ne _ _ hc (by decide), joinP_ne _ _ (append_cons_ne _ _ _) (by decide),
      joinP_ne _ _ (append_cons_ne _ _ _) (by decide)]
    simp only [List.append_assoc, List.cons_append, List.nil_append]
    exact congrArg (fun t => cache ++ t) (by decide)
  simp [runM, runJnlpM, runResListM, runResM, runJarList, runExtListM, runLibList,
    runJreList, headerUpdate, fetchPhase, c2Src, c2Res, resActive, initState, defaultJre,
    pushOp, addErr, appendSep, buildCmds, lastHeapOf, hjar]

/-- C2 amended, witnessed at the concrete cache root `cr`. -/
theorem C2_amended_witness :
    (strLit "cr" ≠ ([] : Str)) ∧
    runM ⟨strLit "cr", strLit "LINUX", strLit "amd64"⟩ [] c2Src =
      .launch (strLit "java")
        [strLit "-cp", colon :: (strLit "cr" ++ slash :: strLit "h/app/x.jar"), strLit "Main"] :=
  ⟨by decide, C2_amended (strLit "cr") (by decide)⟩

/-! ## Frame lemmas for the header fields (C9) -/

theorem headersKeptW_of (w : WalkR) (s0 s1 : GState) (h : headersKeptW w s1)
    (hm : s1.maxheapsize = s0.maxheapsize) (hj : s1.jrepath = s0.jrepath) :
    headersKeptW w s0 := by
  cases w <;> simp_all [headersKeptW]

theorem runJarList_headers (appPath : Str) (js : List ArtRef) (s : GState) :
    headersKeptW (runJarList appPath js s) s := by
  induction js generalizing s with
  | nil => exact ⟨rfl, rfl⟩
  | cons j rest ih =>
    cases hp : j.parseOk with
    | false =>
      simp only [runJarList, hp, Bool.not_false, if_true]
      exact ⟨rfl, rfl⟩
    | true =>
      cases ht : j.taskErr <;>
        · simp only [runJarList, hp, ht, Bool.not_true, if_false, if_true]
          exact headersKeptW_of _ _ _ (ih _) rfl rfl

theorem runLibList_headers (appPath : Str) (js : List ArtRef) (s : GState) :
    headersKeptW (runLibList appPath js s) s := by
  induction js generalizing s with
  | nil => exact ⟨rfl, rfl⟩
  | cons j rest ih =>
    cases hp : j.parseOk with
    | false =>
      simp only [runLibList, hp, Bool.not_false, if_true]
      exact ⟨rfl, rfl⟩
    | true =>
      cases ht : j.taskErr <;>
        · simp only [runLibList, hp, ht, Bool.not_true, if_false, if_true]
          exact headersKeptW_of _ _ _ (ih _) rfl rfl

theorem runJreList_headers (cfg : Cfg) (jnlpPath : Str) (js : List PJre) (s : GState) :
    headersKeptW (runJreList cfg false jnlpPath js s) s := by
  induction js generalizing s with
  | nil => exact ⟨rfl, rfl⟩
  | cons j rest ih =>
    cases hact : jreActive j.os j.arch cfg.os cfg.arch with
    | false =>
      simp only [runJreList, hact, if_false]
      exact headersKeptW_of _ _ _ (ih _) rfl rfl
    | true =>
      cases hp : j.parseOk with
      | false =>
        simp only [runJreList, hact, hp, Bool.not_false, if_true]
        exact ⟨rfl, rfl⟩
      | true =>
        cases ht : j.taskErr <;>
          · simp only [runJreList, hact, hp, ht, Bool.not_true, if_false, if_true]
            exact headersKeptW_of _ _ _ (ih _) rfl rfl

mutual
theorem hk_jnlp (cfg : Cfg) : ∀ (src : JnlpSrc) (s : GState),
    headersKept (runJnlpM cfg false src s) s
  | .mk ff host cb rs jres app applet, s => by
    simp only [runJnlpM]
    cases fetchPhase ff with
    | errNil => exact ⟨rfl, rfl⟩
    | exit => exact trivial
    | okF =>
      dsimp only
      cases hw : runResListM cfg false (appPathOf cfg.cache host) rs s with
      | exited => exact trivial
      | earlyNil s1 =>
        have h1 := hk_resList cfg (appPathOf cfg.cache host) rs s
        rw [hw] at h1
        exact h1
      | ok s1 =>
        have h1 := hk_resList cfg (appPathOf cfg.cache host) rs s
        rw [hw] at h1
        dsimp only
        cases hj : runJreList cfg false (jnlpPathOf cfg.cache host) jres s1 with
        | exited => exact trivial
        | earlyNil s2 =>
          have h2 := runJreList_headers cfg (jnlpPathOf cfg.cache host) jres s1
          rw [hj] at h2
          exact ⟨h2.1.trans h1.1, h2.2.trans h1.2⟩
        | ok s2 =>
          have h2 := runJreList_headers cfg (jnlpPathOf cfg.cache host) jres s1
          rw [hj] at h2
          exact ⟨h2.1.trans h1.1, h2.2.trans h1.2⟩

theorem hk_resList (cfg : Cfg) : ∀ (appPath : Str) (rs : ResList) (s : GState),
    headersKeptW (runResListM cfg false appPath rs s) s
  | _, .nil, _ => ⟨rfl, rfl⟩
  | appPath, .cons r rest, s => by
    simp only [runResListM]
    cases hw : runResM cfg false appPath r s with
    | exited => exact trivial
    | earlyNil s1 =>
      have h1 := hk_res cfg appPath r s
      rw [hw] at h1
      exact h1
    | ok s1 =>
      have h1 := hk_res cfg appPath r s
      rw [hw] at h1
      have h2 := hk_resList cfg appPath rest s1
      exact headersKeptW_of _ _ _ h2 h1.1 h1.2

theorem hk_res (cfg : Cfg) : ∀ (appPath : Str) (r : Res) (s : GState),
    headersKeptW (runResM cfg false appPath r s) s
  | appPath, .mk os arch j2se java jars libs exts, s => by
    simp only [runResM]
    cases hact : resActive os arch cfg.os cfg.arch with
    | false => exact ⟨rfl, rfl⟩
    | true =>
      simp only [if_true]
      cases hw : runJarList appPath jars s with
      | exited => exact trivial
      | earlyNil s1 =>
        have h1 := runJarList_headers appPath jars s
        rw [hw] at h1
        exact h1
      | ok s1 =>
        have h1 := runJarList_headers appPath jars s
        rw [hw] at h1
        dsimp only
        cases he : runExtListM cfg appPath exts s1 with
        | exited => exact trivial
        | earlyNil s2 =>
          have h2 := hk_extList cfg appPath exts s1
          rw [he] at h2
          exact ⟨h2.1.trans h1.1, h2.2.trans h1.2⟩
        | ok s2 =>
          have h2 := hk_extList cfg appPath exts s1
          rw [he] at h2
          dsimp only
          cases hl : runLibList appPath libs s2 with
          | exited => exact trivial
          | earlyNil s3 =>
            have h3 := runLibList_headers appPath libs s2
            rw [hl] at h3
            exact ⟨(h3.1.trans h2.1).trans h1.1, (h3.2.trans h2.2).trans h1.2⟩
          | ok s3 =>
            have h3 := runLibList_headers appPath libs s2
            rw [hl] at h3
            exact ⟨(h3.1.trans h2.1).trans h1.1, (h3.2.trans h2.2).trans h1.2⟩

theorem hk_extList (cfg : Cfg) : ∀ (appPath : Str) (es : ExtList) (s : GState),
    headersKeptW (runExtListM cfg appPath es s) s
  | _, .nil, _ => ⟨rfl, rfl⟩
  | appPath, .cons (.mk href parseOk sub) rest, s => by
    simp only [runExtListM]
    cases hp : parseOk with
    | false => exact ⟨rfl, rfl⟩
    | true =>
      simp only [Bool.not_true, if_false, if_true]
      cases hr : runJnlpM cfg false sub (pushOp .spawnSub s) with
      | exited => exact trivial
      | done doc s2 =>
        have h1 := hk_jnlp cfg sub (pushOp .spawnSub s)
        rw [hr] at h1
        have h2 := hk_extList cfg appPath rest s2
        exact headersKeptW_of _ _ _ h2 h1.1 h1.2
end

/-- C9.  Root-only header metadata: a `runJnlp` invocation with
`doHeader = false` — which is how every extension sub-invocation, at any
depth, is spawned — never changes the global heap hint or the global runtime
executable path; and a resource group whose platform filter does not match
contributes nothing even in the root invocation. -/
theorem C9_root_only_headers (cfg : Cfg) (src : JnlpSrc) (s : GState) :
    headersKept (runJnlpM cfg false src s) s ∧
    (∀ (appPath os arch : Str) (j2se java : List HeapHint) (jars libs : List ArtRef)
      (exts : ExtList), resActive os arch cfg.os cfg.arch = false →
      runResM cfg true appPath (.mk os arch j2se java jars libs exts) s = .ok s) := by
  refine ⟨hk_jnlp cfg src s, ?_⟩
  intro appPath os arch j2se java jars libs exts hact
  simp [runResM, hact]

/-- C9 witness: a nested (non-root) invocation on a concrete descriptor
leaves the header fields unchanged, and a non-matching group is skipped by
the root. -/
theorem C9_witness :
    headersKept (runJnlpM cfg0 false c1Sub (initState defaultJre)) (initState defaultJre) ∧
    runResM cfg0 true [] (.mk (strLit "SOLARIS") [] [] [] [] [] .nil) (initState defaultJre) =
      .ok (initState defaultJre) :=
  ⟨(C9_root_only_headers cfg0 c1Sub (initState defaultJre)).1,
    (C9_root_only_headers cfg0 c1Sub (initState defaultJre)).2 [] (strLit "SOLARIS") [] [] []
      [] [] .nil (by decide)⟩

/-! ## Error-aggregator monotonicity (C10) -/

theorem errsLeW_of (w : WalkR) (s0 s1 : GState) (h : errsLeW w s1)
    (hle : s0.errs ≤ s1.errs) : errsLeW w s0 := by
  cases w <;> simp_all [errsLeW] <;> omega

theorem runJarList_errs (appPath : Str) (js : List ArtRef) (s : GState) :
    errsLeW (runJarList appPath js s) s := by
  induction js generalizing s with
  | nil => exact Nat.le_refl _
  | cons j rest ih =>
    cases hp : j.parseOk with
    | false =>
      simp only [runJarList, hp, Bool.not_false, if_true]
      exact Nat.lt_succ_self _
    | true =>
      cases ht : j.taskErr with
      | false =>
        simp only [runJarList, hp, ht, Bool.not_true, if_false, if_true]
        exact errsLeW_of _ _ _ (ih _) (Nat.le_refl _)
      | true =>
        simp only [runJarList, hp, ht, Bool.not_true, if_false, if_true]
        exact errsLeW_of _ _ _ (ih _) (Nat.le_succ _)

theorem runLibList_errs (appPath : Str) (js : List ArtRef) (s : GState) :
    errsLeW (runLibList appPath js s) s := by
  induction js generalizing s with
  | nil => exact Nat.le_refl _
  | cons j rest ih =>
    cases hp : j.parseOk with
    | false =>
      simp only [runLibList, hp, Bool.not_false, if_true]
      exact Nat.lt_succ_self _
    | true =>
      cases ht : j.taskErr with
      | false =>
        simp only [runLibList, hp, ht, Bool.not_true, if_false, if_true]
        exact errsLeW_of _ _ _ (ih _) (Nat.le_refl _)
      | true =>
        simp only [runLibList, hp, ht, Bool.not_true, if_false, if_true]
        exact errsLeW_of _ _ _ (ih _) (Nat.le_succ _)

theorem runJreList_errs (cfg : Cfg) (doHeader : Bool) (jnlpPath : Str) (js : List PJre)
    (s : GState) : errsLeW (runJreList cfg doHeader jnlpPath js s) s := by
  induction js generalizing s with
  | nil => exact Nat.le_refl _
  | cons j rest ih =>
    cases hact : jreActive j.os j.arch cfg.os cfg.arch with
    | false =>
      simp only [runJreList, hact, if_false]
      exact errsLeW_of _ _ _ (ih _) (Nat.le_refl _)
    | true =>
      cases hp : j.parseOk with
      | false =>
        simp only [runJreList, hact, hp, Bool.not_false, if_true]
        exact Nat.lt_succ_self _
      | true =>
        simp only [runJreList, hact, hp, Bool.not_true, if_false, if_true]
        refine errsLeW_of _ _ _ (ih _) ?_
        cases doHeader <;> cases ht : j.taskErr <;> simp [pushOp, addErr]

mutual
theorem em_jnlp (cfg : Cfg) (doHeader : Bool) : ∀ (src : JnlpSrc) (s : GState),
    errsLeR (runJnlpM cfg doHeader src s) s
  | .mk ff host cb rs jres app applet, s => by
    simp only [runJnlpM]
    cases fetchPhase ff with
    | errNil => exact Nat.lt_succ_self _
    | exit => exact trivial
    | okF =>
      dsimp only
      cases hw : runResListM cfg doHeader (appPathOf cfg.cache host) rs s with
      | exited => exact trivial
      | earlyNil s1 =>
        have h1 := em_resList cfg doHeader (appPathOf cfg.cache host) rs s
        rw [hw] at h1
        exact h1
      | ok s1 =>
        have h1 := em_resList cfg doHeader (appPathOf cfg.cache host) rs s
        rw [hw] at h1
        dsimp only
        cases hj : runJreList cfg doHeader (jnlpPathOf cfg.cache host) jres s1 with
        | exited => exact trivial
        | earlyNil s2 =>
          have h2 := runJreList_errs cfg doHeader (jnlpPathOf cfg.cache host) jres s1
          rw [hj] at h2
          exact Nat.lt_of_le_of_lt h1 h2
        | ok s2 =>
          have h2 := runJreList_errs cfg doHeader (jnlpPathOf cfg.cache host) jres s1
          rw [hj] at h2
          exact Nat.le_trans h1 h2

theorem em_resList (cfg : Cfg) (doHeader : Bool) : ∀ (appPath : Str) (rs : ResList)
    (s : GState), errsLeW (runResListM cfg doHeader appPath rs s) s
  | _, .nil, _ => Nat.le_refl _
  | appPath, .cons r rest, s => by
    simp only [runResListM]
    cases hw : runResM cfg doHeader appPath r s with
    | exited => exact trivial
    | earlyNil s1 =>
      have h1 := em_res cfg doHeader appPath r s
      rw [hw] at h1
      exact h1
    | ok s1 =>
      have h1 := em_res cfg doHeader appPath r s
      rw [hw] at h1
      have h2 := em_resList cfg doHeader appPath rest s1
      exact errsLeW_of _ _ _ h2 h1

theorem em_res (cfg : Cfg) (doHeader : Bool) : ∀ (appPath : Str) (r : Res) (s : GState),
    errsLeW (runResM cfg doHeader appPath r s) s
  | appPath, .mk os arch j2se java jars libs exts, s => by
    simp only [runResM]
    cases hact : resActive os arch cfg.os cfg.arch with
    | false => exact Nat.le_refl _
    | true =>
      simp only [if_true]
      cases hw : runJarList appPath jars s with
      | exited => exact trivial
      | earlyNil s1 =>
        have h1 := runJarList_errs appPath jars s
        rw [hw] at h1
        exact h1
      | ok s1 =>
        have h1 := runJarList_errs appPath jars s
        rw [hw] at h1
        dsimp only
        cases he : runExtListM cfg appPath exts s1 with
        | exited => exact trivial
        | earlyNil s2 =>
          have h2 := em_extList cfg appPath exts s1
          rw [he] at h2
          exact Nat.lt_of_le_of_lt h1 h2
        | ok s2 =>
          have h2 := em_extList cfg appPath exts s1
          rw [he] at h2
          dsimp only
          cases hl : runLibList appPath libs s2 with
          | exited => exact trivial
          | earlyNil s3 =>
            have h3 := runLibList_errs appPath libs s2
            rw [hl] at h3
            exact Nat.lt_of_le_of_lt (Nat.le_trans h1 h2) h3
          | ok s3 =>
            have h3 := runLibList_errs appPath libs s2
            rw [hl] at h3
            show s.errs ≤ (headerUpdate doHeader j2se java s3).errs
            have h4 : (headerUpdate doHeader j2se java s3).errs = s3.errs := by
              cases doHeader <;> rfl
            rw [h4]
            exact Nat.le_trans (Nat.le_trans h1 h2) h3

theorem em_extList (cfg : Cfg) : ∀ (appPath : Str) (es : ExtList) (s : GState),
    errsLeW (runExtListM cfg appPath es s) s
  | _, .nil, _ => Nat.le_refl _
  | appPath, .cons (.mk href parseOk sub) rest, s => by
    simp only [runExtListM]
    cases hp : parseOk with
    | false => exact Nat.lt_succ_self _
    | true =>
      simp only [Bool.not_true, if_false, if_true]
      cases hr : runJnlpM cfg false sub (pushOp .spawnSub s) with
      | exited => exact trivial
      | done doc s2 =>
        have h1 := em_jnlp cfg false sub (pushOp .spawnSub s)
        rw [hr] at h1
        have h1' : s.errs ≤ s2.errs := by
          cases doc with
          | none => exact Nat.le_of_lt h1
          | some d => exact h1
        have h2 := em_extList cfg appPath rest s2
        exact errsLeW_of _ _ _ h2 h1'
end

/-- C10.  Safety of the `nil`-descriptor path: every way `runJnlp` returns
`nil` for the root descriptor first records an error in the aggregator, and
`run` checks the aggregator before touching the returned descriptor — so the
outcome in which `run` would dereference a `nil` descriptor (read its launch
blocks or assemble a command from it) is unreachable; the run reports the
error instead. -/
theorem C10_no_nil_deref (cfg : Cfg) (jreFlag : Str) (src : JnlpSrc) :
    isNilDeref (runM cfg jreFlag src) = false := by
  simp only [runM]
  cases hr : runJnlpM cfg true src
      (initState (if jreFlag.length == 0 then defaultJre else jreFlag)) with
  | exited => rfl
  | done doc s =>
    cases doc with
    | some d =>
      dsimp only
      split
      · rfl
      · rfl
    | none =>
      have h1 := em_jnlp cfg true src
        (initState (if jreFlag.length == 0 then defaultJre else jreFlag))
      rw [hr] at h1
      have h2 : 0 < s.errs := h1
      dsimp only
      rw [if_pos h2]
      rfl

end Espresso
